import Mathlib

/-
Verification of the dgraph bulk loader pipeline (src/loader/loader.go).

The loader is a three-stage concurrent pipeline:
  readLines (single goroutine, randomization window of 1000 lines)
    --> s.input channel --> parseStream workers (GOMAXPROCS of them)
    --> s.cnq channel   --> handleNQuads workers (maxroutines of them)
    --> posting store.

We embed:
  * the pure pieces as Lean functions (SetError, the trim, the modulo
    sharding rule, the ToEdge retry loop, the randomization window of
    readLines, the posting-store call sequence of one mutation), and
  * the concurrent pipeline as an interleaving small-step relation over an
    explicit state (queue contents, the four counters, the error register,
    live worker counts, the closed flag of the triple queue).

External collaborators (rdf.Parse, farm.Fingerprint64, nq.ToEdge, the
posting store) are parameters: the loader only branches on their results.

Machine integers: the Go counters are uint64 and only ever incremented,
so they are modelled as Nat (no overflow behaviour is reachable within
any claim considered here).
-/

namespace Loader

/-- The error type; Go `error` values are abstract, only compared to nil,
so any inhabited type with decidable equality serves.  We use String. -/
abbrev Err := String

/-- rdf.NQuad (external package rdf); the loader reads only `Predicate`
and passes the whole value to `ToEdge`. -/
structure NQuad where
  subject : String
  predicate : String
  objectId : String
deriving DecidableEq

/-- x.DirectedEdge as far as the loader touches it: `posting.Key` is
applied to `edge.Entity` and `edge.Attribute` (loader.go line 229).
The Go field Attribute is spelled `attrib` here (keyword clash). -/
structure Edge where
  entity : String
  attrib : String
deriving DecidableEq

/-- state.SetError (loader.go lines 75-81): under the write lock,
`if s.err == nil { s.err = err }` — first writer wins. -/
def SetError (cur : Option Err) (e : Err) : Option Err :=
  match cur with
  | none => some e
  | some e0 => some e0

/-- The character class of `strings.Trim(line, " \t")` (loader.go line 181). -/
def isTrimChar (c : Char) : Bool :=
  c = ' ' || c = '\t'

/-- strings.Trim(line, " \t"): drop the longest prefix and suffix of
space/tab characters (loader.go line 181). -/
def trimLine (s : String) : String :=
  String.mk (((s.toList.dropWhile isTrimChar).reverse.dropWhile isTrimChar).reverse)

/-- The sharding test of handleNQuads (loader.go line 209):
`farm.Fingerprint64([]byte(nq.Predicate)) % s.numInstances == s.instanceIdx`.
`fp` is the (external) 64-bit fingerprint of the predicate.  Go's integer
`%` panics when the divisor is zero; the panic is modelled as `none`. -/
def shardOwns (fp numInstances instanceIdx : Nat) : Option Bool :=
  if numInstances = 0 then none
  else some (fp % numInstances == instanceIdx)

/- ------------------------------------------------------------------
readLines (loader.go lines 130-170): the randomization window.
Phase 1 fills a window `buf` with up to 1000 lines.  Phase 2, for each
further line: pick a random slot k of the window, emit buf[k], store the
new line at slot k.  When the stream is exhausted, emit the remaining
window slots in index order.  `ks` is the stream of values produced by
rand.Intn(len(buf)); rand.Intn returns a value in [0, n), which we model
by reducing the supplied choice modulo the window length.
------------------------------------------------------------------ -/

/-- Phase 2 and the final drain of readLines (loader.go lines 151-168).
`buf` is the window, `rest` the lines still unread, `ks` the random
choices.  Returns the sequence of lines sent on s.input. -/
def randomizeLoop : List String → List String → List Nat → List String
  | buf, [], _ => buf
  | buf, l :: rest, ks =>
    let k := ks.headD 0 % buf.length
    buf.getD k "" :: randomizeLoop (buf.set k l) rest ks.tail

/-- The window capacity hard-coded in readLines (loader.go line 136). -/
def windowCapacity : Nat := 1000

/-- readLines with window capacity `w`: phase 1 takes the first `w` lines
into the window (loader.go lines 136-143; the loop stops early at EOF, so
the window holds `min w (length lines)` lines), then phase 2 runs on the
remaining lines.  The source instantiates `w := windowCapacity`. -/
def readLinesWindow (w : Nat) (ks : List Nat) (lines : List String) : List String :=
  randomizeLoop (lines.take w) (lines.drop w) ks

/-- readLines as written (window capacity 1000), as the sequence of lines
emitted on the s.input channel. -/
def readLines (ks : List Nat) (lines : List String) : List String :=
  readLinesWindow windowCapacity ks lines

/- ------------------------------------------------------------------
The ToEdge retry loop (loader.go lines 214-227):

  edge, err := nq.ToEdge()
  for err != nil {
    if err == posting.E_TMP_ERROR { time.Sleep(time.Microsecond) }
    else { s.SetError(err); log; return }
    edge, err = nq.ToEdge()
  }

ToEdge is external; its behaviour over successive attempts is a stub
`f : Nat -> EdgeRes` (attempt number -> result), matching the spec's
"edge-construction stub that fails transiently exactly k times".
------------------------------------------------------------------ -/

/-- The result of one nq.ToEdge() call: success, the transient
posting.E_TMP_ERROR, or a permanent error. -/
inductive EdgeRes where
  | ok (e : Edge)
  | tmpError
  | permError (m : Err)
deriving DecidableEq

/-- The retry loop, fuel-indexed: `retryToEdge f attempt fuel` runs the
loop starting at the given attempt number for at most `fuel` ToEdge
calls.  `none` means the loop is still retrying after `fuel` calls;
`some (.ok e)` means the loop exited with edge `e`; `some (.error m)`
means the loop hit a permanent error `m` (the worker then calls
SetError and returns). -/
def retryToEdge (f : Nat → EdgeRes) : Nat → Nat → Option (Except Err Edge)
  | _, 0 => none
  | attempt, fuel + 1 =>
    match f attempt with
    | .ok e => some (.ok e)
    | .permError m => some (.error m)
    | .tmpError => retryToEdge f (attempt + 1) fuel

/- ------------------------------------------------------------------
The posting-store call sequence of one applied mutation
(loader.go lines 229-233):

  key := posting.Key(edge.Entity, edge.Attribute)
  plist, decr := posting.GetOrCreate(key, dataStore)
  plist.AddMutationWithIndex(ctx, edge, posting.Set)
  decr() // Don't defer, just call because we're in a channel loop.
------------------------------------------------------------------ -/

/-- posting.Key(entity, attribute): the posting list key. -/
structure PKey where
  entity : String
  attrib : String
deriving DecidableEq

/-- An event observed by the posting store.  `release` is the call of
the `decr` callback returned by GetOrCreate. -/
inductive StoreEvent where
  | getOrCreate (k : PKey)
  | addMutationWithIndex (k : PKey) (e : Edge)
  | release (k : PKey)
deriving DecidableEq

/-- Whether an event is a GetOrCreate (lease acquisition). -/
def StoreEvent.isAcquire : StoreEvent → Bool
  | .getOrCreate _ => true
  | _ => false

/-- Whether an event is a release of a lease (a `decr()` call). -/
def StoreEvent.isRelease : StoreEvent → Bool
  | .release _ => true
  | _ => false

/-- The exact sequence of store calls a mutation worker performs to
apply one edge (loader.go lines 229-233). -/
def applyEdgeEvents (e : Edge) : List StoreEvent :=
  let key : PKey := ⟨e.entity, e.attrib⟩
  [.getOrCreate key, .addMutationWithIndex key e, .release key]

/-- The store-call trace of a worker that applies a list of edges, one
loop iteration per edge. -/
def workerStoreTrace (es : List Edge) : List StoreEvent :=
  es.flatMap applyEdgeEvents

/- ------------------------------------------------------------------
The concurrent pipeline as an interleaving small-step relation.

State granularity and fidelity notes:

* `input` is the (ordered) content still to be delivered by the s.input
  channel; readLines runs to completion independently of the claims
  below, so the run starts with its full output (see readLines above)
  and the channel already closed.  `cnq` is the content of the s.cnq
  channel.  Channel capacities only delay steps; they do not change
  which counter states are reachable, so queues are unbounded here.
* A parse worker's successful iteration is two separate atomic steps,
  exactly as in the source: the send `s.cnq <- nq` (line 193) and then
  the increment of `parsed` (line 194).  `inflight` counts workers that
  are between the two; such a worker can neither dequeue nor exit.
* A mutation worker's iteration is a single step: all its shared-state
  effects (one dequeue plus at most one counter or error update) are
  adjacent in the loop body with no intervening shared writes whose
  order another claim depends on.
* Worker pools are modelled by live-worker counts `pworkers` (the
  parseStream goroutines, GOMAXPROCS many) and `mworkers` (the
  handleNQuads goroutines, maxroutines many); a `return` decrements the
  count, and `pwg.Wait()` / `wg.Wait()` are the conditions
  pworkers = 0 / mworkers = 0.
* `close(s.cnq)` (line 272) is the `closeCnq` step, enabled once
  pworkers = 0, i.e. after pwg.Wait() returns.
* With numInstances = 0 the modulo on line 209 panics; shardOwns is
  then `none` and no dequeue step exists (the panic state is stuck).
------------------------------------------------------------------ -/

/-- The external collaborators and static parameters of one LoadEdges
invocation: rdf.Parse, farm.Fingerprint64 (as a function of the
predicate), and the sharding parameters. -/
structure Config where
  parseFn : String → Except Err NQuad
  fp : String → Nat
  instanceIdx : Nat
  numInstances : Nat

/-- The shared mutable state of one LoadEdges invocation (struct `state`
plus its `counters`, loader.go lines 48-63), together with the
scheduling bookkeeping (live worker counts, pending parsed-counter
increments, the closed flag of cnq). -/
structure PState where
  input : List String
  cnq : List NQuad
  inflight : Nat
  parsed : Nat
  processed : Nat
  ignored : Nat
  err : Option Err
  pworkers : Nat
  mworkers : Nat
  cnqClosed : Bool
deriving DecidableEq

/-- One atomic step of the pipeline. -/
inductive Step (cfg : Config) : PState → PState → Prop where
  /-- parseStream, lines 177-180: a free parse worker dequeues a line,
  sees the error register set, and returns without touching anything. -/
  | parseDrop (st : PState) (l : String) (rest : List String) (e : Err) :
      st.input = l :: rest → st.err = some e → st.inflight < st.pworkers →
      Step cfg st { st with input := rest, pworkers := st.pworkers - 1 }
  /-- parseStream, lines 181-185: a free parse worker dequeues a line
  that is blank after trimming and skips it (no counter change). -/
  | parseBlank (st : PState) (l : String) (rest : List String) :
      st.input = l :: rest → st.err = none → trimLine l = "" →
      st.inflight < st.pworkers →
      Step cfg st { st with input := rest }
  /-- parseStream, lines 188-191: rdf.Parse fails; the worker stores the
  first error via SetError and returns. -/
  | parseFail (st : PState) (l : String) (rest : List String) (m : Err) :
      st.input = l :: rest → st.err = none → trimLine l ≠ "" →
      cfg.parseFn (trimLine l) = .error m → st.inflight < st.pworkers →
      Step cfg st { st with input := rest, err := SetError st.err m,
                            pworkers := st.pworkers - 1 }
  /-- parseStream, line 193: rdf.Parse succeeds and the worker sends the
  triple on cnq.  The parsed counter is NOT yet incremented; the worker
  becomes in-flight. -/
  | parseEnq (st : PState) (l : String) (rest : List String) (nq : NQuad) :
      st.input = l :: rest → st.err = none → trimLine l ≠ "" →
      cfg.parseFn (trimLine l) = .ok nq → st.inflight < st.pworkers →
      Step cfg st { st with input := rest, cnq := st.cnq ++ [nq],
                            inflight := st.inflight + 1 }
  /-- parseStream, line 194: an in-flight parse worker performs its
  atomic increment of the parsed counter. -/
  | parseInc (st : PState) :
      1 ≤ st.inflight →
      Step cfg st { st with inflight := st.inflight - 1,
                            parsed := st.parsed + 1 }
  /-- parseStream, line 177: the range loop of a free parse worker ends
  because s.input is closed and drained; the worker exits. -/
  | parseExit (st : PState) :
      st.input = [] → st.inflight < st.pworkers →
      Step cfg st { st with pworkers := st.pworkers - 1 }
  /-- LoadEdges, lines 271-272: pwg.Wait() has returned (all parse
  workers exited) and the coordinator closes cnq. -/
  | closeCnq (st : PState) :
      st.pworkers = 0 → st.cnqClosed = false →
      Step cfg st { st with cnqClosed := true }
  /-- handleNQuads, lines 204-207: a mutation worker dequeues a triple,
  sees the error register set, and returns without touching anything. -/
  | mutDrop (st : PState) (nq : NQuad) (rest : List NQuad) (e : Err) :
      st.cnq = nq :: rest → st.err = some e → 1 ≤ st.mworkers →
      Step cfg st { st with cnq := rest, mworkers := st.mworkers - 1 }
  /-- handleNQuads, lines 208-212: the predicate fails the modulo rule;
  the triple is ignored (only the ignored counter changes). -/
  | mutIgnore (st : PState) (nq : NQuad) (rest : List NQuad) :
      st.cnq = nq :: rest → st.err = none →
      shardOwns (cfg.fp nq.predicate) cfg.numInstances cfg.instanceIdx
        = some false →
      1 ≤ st.mworkers →
      Step cfg st { st with cnq := rest, ignored := st.ignored + 1 }
  /-- handleNQuads, lines 214-235: the triple is owned, the ToEdge retry
  loop eventually succeeds, the mutation is applied and released, and
  the processed counter is incremented. -/
  | mutProcess (st : PState) (nq : NQuad) (rest : List NQuad) :
      st.cnq = nq :: rest → st.err = none →
      shardOwns (cfg.fp nq.predicate) cfg.numInstances cfg.instanceIdx
        = some true →
      1 ≤ st.mworkers →
      Step cfg st { st with cnq := rest, processed := st.processed + 1 }
  /-- handleNQuads, lines 220-224: the triple is owned but ToEdge fails
  permanently; the worker stores the first error and returns. -/
  | mutPermFail (st : PState) (nq : NQuad) (rest : List NQuad) (m : Err) :
      st.cnq = nq :: rest → st.err = none →
      shardOwns (cfg.fp nq.predicate) cfg.numInstances cfg.instanceIdx
        = some true →
      1 ≤ st.mworkers →
      Step cfg st { st with cnq := rest, err := SetError st.err m,
                            mworkers := st.mworkers - 1 }
  /-- handleNQuads, line 204: the range loop of a mutation worker ends
  because cnq is closed and drained; the worker exits. -/
  | mutExit (st : PState) :
      st.cnqClosed = true → st.cnq = [] → 1 ≤ st.mworkers →
      Step cfg st { st with mworkers := st.mworkers - 1 }

/-- Zero or more pipeline steps. -/
def Reach (cfg : Config) : PState → PState → Prop :=
  Relation.ReflTransGen (Step cfg)

/-- The state LoadEdges sets up (lines 244-268): empty queues, zero
counters, empty error register, `numParsers` parseStream goroutines and
`numMutators` handleNQuads goroutines.  `lines` is the output of
readLines (its emission order; see readLines above for the fact that it
is a permutation of the file's lines). -/
def initState (lines : List String) (numParsers numMutators : Nat) : PState :=
  { input := lines, cnq := [], inflight := 0, parsed := 0, processed := 0,
    ignored := 0, err := none, pworkers := numParsers,
    mworkers := numMutators, cnqClosed := false }

/-- The pair LoadEdges returns (line 278): the processed counter and the
content of the error register. -/
def loadEdgesReturn (st : PState) : Nat × Option Err :=
  (st.processed, st.err)

/- ------------------------------------------------------------------
Inductive invariants of the step relation.
------------------------------------------------------------------ -/

/-- Structural invariant, true from any initial state:
1. in-flight parse workers are live parse workers;
2. cnq is closed only once every parse worker has exited;
3. every terminal count (processed/ignored) and every queued triple
   stems from a distinct send on cnq, and sends are counted by
   parsed + inflight, so processed + ignored + |cnq| ≤ parsed + inflight;
4. while no error has occurred nothing is ever discarded, so (3) is an
   equality. -/
def Inv0 (st : PState) : Prop :=
  st.inflight ≤ st.pworkers ∧
  (st.cnqClosed = true → st.pworkers = 0) ∧
  st.processed + st.ignored + st.cnq.length ≤ st.parsed + st.inflight ∧
  (st.err = none → st.parsed + st.inflight
      = st.processed + st.ignored + st.cnq.length)

/-- Drain invariant: in an error-free run, once every mutation worker
has exited, every parse worker has exited too and cnq is empty (a
mutation worker can only exit normally, which requires cnq closed and
drained, and cnq closed requires all parse workers done).  This needs
at least one mutation worker at start, so it is stated relative to the
initial state in reach_inv below. -/
def Drained (st : PState) : Prop :=
  st.err = none → st.mworkers = 0 → st.pworkers = 0 ∧ st.cnq = []

/- ------------------------------------------------------------------
Concrete instantiations used in counterexamples and witnesses.
------------------------------------------------------------------ -/

/-- A concrete triple. -/
def nqX : NQuad := { subject := "x", predicate := "x", objectId := "x" }

/-- A configuration whose parser always succeeds with `nqX` and whose
single instance (numInstances = 1, instanceIdx = 0) owns every
predicate. -/
def cfgOwnAll : Config :=
  { parseFn := fun _ => Except.ok nqX, fp := fun _ => 0,
    instanceIdx := 0, numInstances := 1 }

/-- A configuration whose parser accepts the line "a" and rejects every
other line with the error "parse". -/
def cfgFailB : Config :=
  { parseFn := fun s => if s = "a" then Except.ok nqX
                        else Except.error "parse",
    fp := fun _ => 0, instanceIdx := 0, numInstances := 1 }

/-- A state with the error register set, one parsed triple still queued
and one live mutation worker. -/
def stErrQueued : PState :=
  { input := [], cnq := [nqX], inflight := 0, parsed := 1, processed := 0,
    ignored := 0, err := some "parse", pworkers := 0, mworkers := 1,
    cnqClosed := false }

/- ==================================================================
Theorems.
================================================================== -/

/-- Emitting the occupant of slot k and refilling the slot is, up to
permutation, just adding the new line to the window. -/
theorem getD_cons_set_perm (buf : List String) (k : Nat) (l : String)
    (hk : k < buf.length) :
    (buf.getD k "" :: buf.set k l).Perm (l :: buf) := by
  induction buf generalizing k with
  | nil => simp at hk
  | cons b bs ih =>
    cases k with
    | zero =>
      simp [List.getD, List.set]
      exact List.Perm.swap l b bs
    | succ k =>
      have hk' : k < bs.length := by simpa using hk
      have step : (bs.getD k "" :: b :: bs.set k l).Perm (b :: bs.getD k "" :: bs.set k l) :=
        List.Perm.swap b (bs.getD k "") (bs.set k l)
      have mid : (b :: bs.getD k "" :: bs.set k l).Perm (b :: l :: bs) :=
        List.Perm.cons b (ih k hk')
      have fin : (b :: l :: bs).Perm (l :: b :: bs) := List.Perm.swap l b bs
      simpa [List.getD, List.set] using (step.trans mid).trans fin

/-- The randomization loop emits exactly the window plus the remaining
stream, as a multiset (provided the window is nonempty whenever lines
remain, which phase 1 guarantees for capacity at least 1). -/
theorem randomizeLoop_perm (rest : List String) :
    ∀ (buf : List String) (ks : List Nat), buf ≠ [] →
      (randomizeLoop buf rest ks).Perm (buf ++ rest) := by
  induction rest with
  | nil => intro buf ks _; simp [randomizeLoop]
  | cons l rest ih =>
    intro buf ks hbuf
    have hlen : 0 < buf.length := List.length_pos.mpr hbuf
    have hk : ks.headD 0 % buf.length < buf.length := Nat.mod_lt _ hlen
    have hset : buf.set (ks.headD 0 % buf.length) l ≠ [] := by
      intro h
      have h2 : buf.length = 0 := by
        have h3 := congrArg List.length h
        simpa using h3
      omega
    have ihm := ih (buf.set (ks.headD 0 % buf.length) l) ks.tail hset
    have h1 : (randomizeLoop buf (l :: rest) ks).Perm
        (buf.getD (ks.headD 0 % buf.length) "" ::
          (buf.set (ks.headD 0 % buf.length) l ++ rest)) := by
      simpa [randomizeLoop] using
        List.Perm.cons (buf.getD (ks.headD 0 % buf.length) "") ihm
    have h2 : (buf.getD (ks.headD 0 % buf.length) "" ::
          (buf.set (ks.headD 0 % buf.length) l ++ rest)).Perm ((l :: buf) ++ rest) := by
      have := (getD_cons_set_perm buf (ks.headD 0 % buf.length) l hk).append_right rest
      simpa using this
    have h3 : ((l :: buf) ++ rest).Perm (buf ++ l :: rest) :=
      (List.perm_middle).symm
    exact (h1.trans h2).trans h3

theorem step_inv0 {cfg : Config} {st st' : PState}
    (h : Step cfg st st') (hi : Inv0 st) : Inv0 st' := by
  obtain ⟨h1, h2, h3, h4⟩ := hi
  cases h with
  | parseDrop l rest e hin herr hfree =>
    refine ⟨?_, ?_, ?_, ?_⟩ <;> dsimp only
    · omega
    · intro hc; have := h2 hc; omega
    · exact h3
    · intro hn; rw [hn] at herr; cases herr
  | parseBlank l rest hin herr hbl hfree =>
    exact ⟨h1, h2, h3, h4⟩
  | parseFail l rest m hin herr htr hp hfree =>
    refine ⟨?_, ?_, ?_, ?_⟩ <;> dsimp only
    · omega
    · intro hc; have := h2 hc; omega
    · exact h3
    · intro hn; rw [herr] at hn; simp [SetError] at hn
  | parseEnq l rest nq hin herr htr hp hfree =>
    refine ⟨?_, ?_, ?_, ?_⟩ <;> dsimp only
    · omega
    · exact h2
    · simp only [List.length_append, List.length_cons, List.length_nil]
      omega
    · intro hn
      have h4' := h4 hn
      simp only [List.length_append, List.length_cons, List.length_nil]
      omega
  | parseInc hfl =>
    refine ⟨?_, ?_, ?_, ?_⟩ <;> dsimp only
    · omega
    · exact h2
    · omega
    · intro hn
      have h4' := h4 hn
      omega
  | parseExit hin hfree =>
    refine ⟨?_, ?_, ?_, ?_⟩ <;> dsimp only
    · omega
    · intro hc; have := h2 hc; omega
    · exact h3
    · exact h4
  | closeCnq hpw hcl =>
    refine ⟨h1, ?_, h3, h4⟩
    intro _; exact hpw
  | mutDrop nq rest e hq herr hm =>
    refine ⟨h1, h2, ?_, ?_⟩ <;> dsimp only
    · rw [hq] at h3
      simp only [List.length_cons] at h3
      omega
    · intro hn; rw [hn] at herr; cases herr
  | mutIgnore nq rest hq herr hsh hm =>
    refine ⟨h1, h2, ?_, ?_⟩ <;> dsimp only
    · rw [hq] at h3
      simp only [List.length_cons] at h3
      omega
    · intro hn
      have h4' := h4 hn
      rw [hq] at h4'
      simp only [List.length_cons] at h4'
      omega
  | mutProcess nq rest hq herr hsh hm =>
    refine ⟨h1, h2, ?_, ?_⟩ <;> dsimp only
    · rw [hq] at h3
      simp only [List.length_cons] at h3
      omega
    · intro hn
      have h4' := h4 hn
      rw [hq] at h4'
      simp only [List.length_cons] at h4'
      omega
  | mutPermFail nq rest m hq herr hsh hm =>
    refine ⟨h1, h2, ?_, ?_⟩ <;> dsimp only
    · rw [hq] at h3
      simp only [List.length_cons] at h3
      omega
    · intro hn; rw [herr] at hn; simp [SetError] at hn
  | mutExit hcl hq hm =>
    exact ⟨h1, h2, h3, h4⟩

/-- The error register is sticky: no step clears it. -/
theorem step_err_sticky {cfg : Config} {st st' : PState} {e : Err}
    (h : Step cfg st st') (he : st.err = some e) : st'.err = some e := by
  cases h <;> simp_all [SetError]

theorem step_drained {cfg : Config} {st st' : PState}
    (h : Step cfg st st') (hi : Inv0 st) (hd : Drained st) :
    Drained st' := by
  obtain ⟨h1, h2, _, _⟩ := hi
  cases h with
  | parseDrop l rest e hin herr hfree =>
    intro hn
    dsimp only at hn
    rw [hn] at herr
    cases herr
  | parseBlank l rest hin herr hbl hfree =>
    intro hn hm
    dsimp only at hn hm ⊢
    have := hd hn hm
    exact ⟨this.1, this.2⟩
  | parseFail l rest m hin herr htr hp hfree =>
    intro hn
    dsimp only at hn
    rw [herr] at hn
    simp [SetError] at hn
  | parseEnq l rest nq hin herr htr hp hfree =>
    intro hn hm
    dsimp only at hn hm ⊢
    have := hd hn hm
    omega
  | parseInc hfl =>
    intro hn hm
    dsimp only at hn hm ⊢
    have := hd hn hm
    exact ⟨this.1, this.2⟩
  | parseExit hin hfree =>
    intro hn hm
    dsimp only at hn hm ⊢
    have := hd hn hm
    refine ⟨?_, this.2⟩
    omega
  | closeCnq hpw hcl =>
    intro hn hm
    dsimp only at hn hm ⊢
    have := hd hn hm
    exact ⟨this.1, this.2⟩
  | mutDrop nq rest e hq herr hm0 =>
    intro hn
    dsimp only at hn
    rw [hn] at herr
    cases herr
  | mutIgnore nq rest hq herr hsh hm0 =>
    intro hn hm
    dsimp only at hn hm ⊢
    omega
  | mutProcess nq rest hq herr hsh hm0 =>
    intro hn hm
    dsimp only at hn hm ⊢
    omega
  | mutPermFail nq rest m hq herr hsh hm0 =>
    intro hn
    dsimp only at hn
    rw [herr] at hn
    simp [SetError] at hn
  | mutExit hcl hq hm0 =>
    intro hn hm
    dsimp only
    exact ⟨h2 hcl, hq⟩

theorem inv0_init (lines : List String) (np nm : Nat) :
    Inv0 (initState lines np nm) := by
  simp [Inv0, initState]

/-- Every reachable state satisfies the structural invariant. -/
theorem reach_inv0 {cfg : Config} {lines : List String} {np nm : Nat}
    {st : PState} (h : Reach cfg (initState lines np nm) st) : Inv0 st := by
  induction h with
  | refl => exact inv0_init lines np nm
  | tail _ hstep ih => exact step_inv0 hstep ih

/-- With at least one mutation worker at start, every reachable state
satisfies the drain invariant as well. -/
theorem reach_drained {cfg : Config} {lines : List String} {np nm : Nat}
    {st : PState} (hnm : 1 ≤ nm)
    (h : Reach cfg (initState lines np nm) st) : Drained st := by
  have hp : Inv0 st ∧ Drained st := by
    induction h with
    | refl =>
      refine ⟨inv0_init lines np nm, ?_⟩
      intro _ hm
      simp [initState] at hm
      omega
    | tail _ hstep ih =>
      exact ⟨step_inv0 hstep ih.1, step_drained hstep ih.1 ih.2⟩
  exact hp.2

/-- Exhaustive case analysis of a step that removes the head of cnq:
only the four dequeue branches of handleNQuads can do that, and their
guards and effects are exactly those of loader.go lines 204-236. -/
theorem dequeue_step_cases {cfg : Config} {st st' : PState} {nq : NQuad}
    {rest : List NQuad} (h : Step cfg st st')
    (hq : st.cnq = nq :: rest) (hq' : st'.cnq = rest) :
    (∃ e, st.err = some e ∧
        st' = { st with cnq := rest, mworkers := st.mworkers - 1 }) ∨
    (st.err = none ∧
        shardOwns (cfg.fp nq.predicate) cfg.numInstances cfg.instanceIdx
          = some false ∧
        st' = { st with cnq := rest, ignored := st.ignored + 1 }) ∨
    (st.err = none ∧
        shardOwns (cfg.fp nq.predicate) cfg.numInstances cfg.instanceIdx
          = some true ∧
        st' = { st with cnq := rest, processed := st.processed + 1 }) ∨
    (∃ m, st.err = none ∧
        shardOwns (cfg.fp nq.predicate) cfg.numInstances cfg.instanceIdx
          = some true ∧
        st' = { st with cnq := rest, err := some m,
                        mworkers := st.mworkers - 1 }) := by
  cases h with
  | parseDrop l rest0 e hin herr hfree =>
    exfalso
    dsimp only at hq'
    rw [hq] at hq'
    have := congrArg List.length hq'
    simp at this
  | parseBlank l rest0 hin herr hbl hfree =>
    exfalso
    dsimp only at hq'
    rw [hq] at hq'
    have := congrArg List.length hq'
    simp at this
  | parseFail l rest0 m hin herr htr hp hfree =>
    exfalso
    dsimp only at hq'
    rw [hq] at hq'
    have := congrArg List.length hq'
    simp at this
  | parseEnq l rest0 nq0 hin herr htr hp hfree =>
    exfalso
    dsimp only at hq'
    rw [hq] at hq'
    have := congrArg List.length hq'
    simp at this
    omega
  | parseInc hfl =>
    exfalso
    dsimp only at hq'
    rw [hq] at hq'
    have := congrArg List.length hq'
    simp at this
  | parseExit hin hfree =>
    exfalso
    dsimp only at hq'
    rw [hq] at hq'
    have := congrArg List.length hq'
    simp at this
  | closeCnq hpw hcl =>
    exfalso
    dsimp only at hq'
    rw [hq] at hq'
    have := congrArg List.length hq'
    simp at this
  | mutDrop nq0 rest0 e hq0 herr hm =>
    rw [hq] at hq0
    obtain ⟨rfl, rfl⟩ : nq = nq0 ∧ rest = rest0 := by
      have := List.cons.inj hq0
      exact ⟨this.1, this.2⟩
    exact Or.inl ⟨e, herr, rfl⟩
  | mutIgnore nq0 rest0 hq0 herr hsh hm =>
    rw [hq] at hq0
    obtain ⟨rfl, rfl⟩ : nq = nq0 ∧ rest = rest0 := by
      have := List.cons.inj hq0
      exact ⟨this.1, this.2⟩
    exact Or.inr (Or.inl ⟨herr, hsh, rfl⟩)
  | mutProcess nq0 rest0 hq0 herr hsh hm =>
    rw [hq] at hq0
    obtain ⟨rfl, rfl⟩ : nq = nq0 ∧ rest = rest0 := by
      have := List.cons.inj hq0
      exact ⟨this.1, this.2⟩
    exact Or.inr (Or.inr (Or.inl ⟨herr, hsh, rfl⟩))
  | mutPermFail nq0 rest0 m hq0 herr hsh hm =>
    rw [hq] at hq0
    obtain ⟨rfl, rfl⟩ : nq = nq0 ∧ rest = rest0 := by
      have := List.cons.inj hq0
      exact ⟨this.1, this.2⟩
    refine Or.inr (Or.inr (Or.inr ⟨m, herr, hsh, ?_⟩))
    rw [herr]
    rfl
  | mutExit hcl hq0 hm =>
    exfalso
    rw [hq0] at hq
    cases hq

/-- Exhaustive case analysis of a step that removes the head of the
input queue while the error register is set: only the early-return
branch of parseStream (lines 177-180) can do that, and it leaves every
counter, the triple queue and the error register untouched. -/
theorem line_dequeue_err_cases {cfg : Config} {st st' : PState}
    {l : String} {rest : List String} {e : Err} (h : Step cfg st st')
    (he : st.err = some e) (hq : st.input = l :: rest)
    (hq' : st'.input = rest) :
    st' = { st with input := rest, pworkers := st.pworkers - 1 } := by
  cases h with
  | parseDrop l0 rest0 e0 hin herr hfree =>
    rw [hq] at hin
    obtain ⟨rfl, rfl⟩ : l = l0 ∧ rest = rest0 := by
      have := List.cons.inj hin
      exact ⟨this.1, this.2⟩
    rfl
  | parseBlank l0 rest0 hin herr hbl hfree =>
    exfalso; rw [he] at herr; cases herr
  | parseFail l0 rest0 m hin herr htr hp hfree =>
    exfalso; rw [he] at herr; cases herr
  | parseEnq l0 rest0 nq0 hin herr htr hp hfree =>
    exfalso; rw [he] at herr; cases herr
  | parseInc hfl =>
    exfalso; dsimp only at hq'; rw [hq] at hq'
    have := congrArg List.length hq'; simp at this
  | parseExit hin hfree =>
    exfalso; rw [hin] at hq; cases hq
  | closeCnq hpw hcl =>
    exfalso; dsimp only at hq'; rw [hq] at hq'
    have := congrArg List.length hq'; simp at this
  | mutDrop nq0 rest0 e0 hq0 herr hm =>
    exfalso; dsimp only at hq'; rw [hq] at hq'
    have := congrArg List.length hq'; simp at this
  | mutIgnore nq0 rest0 hq0 herr hsh hm =>
    exfalso; dsimp only at hq'; rw [hq] at hq'
    have := congrArg List.length hq'; simp at this
  | mutProcess nq0 rest0 hq0 herr hsh hm =>
    exfalso; dsimp only at hq'; rw [hq] at hq'
    have := congrArg List.length hq'; simp at this
  | mutPermFail nq0 rest0 m hq0 herr hsh hm =>
    exfalso; dsimp only at hq'; rw [hq] at hq'
    have := congrArg List.length hq'; simp at this
  | mutExit hcl hq0 hm =>
    exfalso; dsimp only at hq'; rw [hq] at hq'
    have := congrArg List.length hq'; simp at this

/-- Running the retry loop past a prefix of transient failures just
advances the attempt counter. -/
theorem retryToEdge_tmp_prefix (f : Nat → EdgeRes) :
    ∀ (k a : Nat), (∀ i, i < k → f (a + i) = .tmpError) →
      retryToEdge f a (k + 1) = retryToEdge f (a + k) 1 := by
  intro k
  induction k with
  | zero => intro a _; rfl
  | succ k ih =>
    intro a h
    have h0 : f a = .tmpError := by
      have := h 0 (by omega)
      simpa using this
    have hrec : retryToEdge f a (k + 1 + 1) = retryToEdge f (a + 1) (k + 1) := by
      simp [retryToEdge, h0]
    rw [hrec]
    have hshift : ∀ i, i < k → f (a + 1 + i) = .tmpError := by
      intro i hi
      have := h (i + 1) (by omega)
      have harith : a + (i + 1) = a + 1 + i := by omega
      rw [harith] at this
      exact this
    rw [ih (a + 1) hshift]
    have harith2 : a + 1 + k = a + (k + 1) := by omega
    rw [harith2]

/-- SetError never changes an already-set register. -/
theorem foldl_SetError_some (l : List Err) :
    ∀ c : Err, l.foldl SetError (some c) = some c := by
  induction l with
  | nil => intro c; rfl
  | cons e rest ih => intro c; simpa [SetError] using ih c

/-- readLines emits a permutation of its input for any window capacity
of at least 1. -/
theorem readLinesWindow_perm (w : Nat) (ks : List Nat)
    (lines : List String) (hw : 1 ≤ w) :
    (readLinesWindow w ks lines).Perm lines := by
  by_cases hnil : lines = []
  · subst hnil
    simp [readLinesWindow, randomizeLoop]
  · have hlen : 0 < lines.length := List.length_pos.mpr hnil
    have hbuf : lines.take w ≠ [] := by
      apply List.length_pos.mp
      simp [List.length_take]
      omega
    have h := randomizeLoop_perm (lines.drop w) (lines.take w) ks hbuf
    simpa [readLinesWindow, List.take_append_drop] using h

/-- C1: a dequeued triple is owned by this instance iff the fingerprint
of its predicate modulo numInstances equals instanceIdx (loader.go line
209); for numInstances >= 1 exactly one instanceIdx in [0, numInstances)
owns any given fingerprint (ownership is disjoint and covering); and a
step that dequeues a non-owned triple in an error-free state changes the
state only by removing the triple and incrementing the ignored counter
(lines 209-212): no further processing happens. -/
theorem c1_sharding_unique_owner (fp n idx : Nat) (hn : 1 ≤ n) :
    (shardOwns fp n idx = some true ↔ fp % n = idx) ∧
    (∃! j : Nat, j < n ∧ shardOwns fp n j = some true) ∧
    (∀ (cfg : Config) (st st' : PState) (nq : NQuad) (rest : List NQuad),
        Step cfg st st' → st.err = none → st.cnq = nq :: rest →
        shardOwns (cfg.fp nq.predicate) cfg.numInstances cfg.instanceIdx
          = some false →
        st'.cnq = rest →
        st' = { st with cnq := rest, ignored := st.ignored + 1 }) := by
  have hne : n ≠ 0 := by omega
  have hiff : ∀ j, shardOwns fp n j = some true ↔ fp % n = j := by
    intro j
    simp [shardOwns, hne]
  refine ⟨hiff idx, ⟨fp % n, ⟨Nat.mod_lt fp (by omega), ?_⟩, ?_⟩, ?_⟩
  · exact (hiff (fp % n)).mpr rfl
  · rintro y ⟨_, hy⟩
    exact ((hiff y).mp hy).symm
  · intro cfg st st' nq rest hstep herr hq hsh hq'
    rcases dequeue_step_cases hstep hq hq' with
      ⟨e, he, _⟩ | ⟨_, _, hres⟩ | ⟨_, hob, _⟩ | ⟨m, _, hob, _⟩
    · rw [herr] at he; cases he
    · exact hres
    · rw [hsh] at hob; cases hob
    · rw [hsh] at hob; cases hob

/-- Closed instance of c1_sharding_unique_owner: fingerprint 5 with
3 instances is owned exactly by instance 2. -/
theorem c1_sharding_unique_owner_witness :
    shardOwns 5 3 2 = some true :=
  ((c1_sharding_unique_owner 5 3 2 (by decide)).1).mpr (by decide)

/-- C3: the error register is created empty; a fold of SetError over any
sequence of reported errors stores exactly the first one (later calls
never overwrite); once set, the register keeps that first value along
any sequence of pipeline steps; and LoadEdges returns exactly the pair
(processed counter, register content) — no aggregation of later
errors. -/
theorem c3_error_register_first_wins :
    (∀ (lines : List String) (np nm : Nat),
        (initState lines np nm).err = none) ∧
    (∀ errs : List Err, errs.foldl SetError none = errs.head?) ∧
    (∀ (cfg : Config) (st st' : PState) (e : Err),
        Reach cfg st st' → st.err = some e → st'.err = some e) ∧
    (∀ st : PState, loadEdgesReturn st = (st.processed, st.err)) := by
  refine ⟨fun _ _ _ => rfl, ?_, ?_, fun _ => rfl⟩
  · intro errs
    cases errs with
    | nil => rfl
    | cons e rest =>
      simpa [SetError] using foldl_SetError_some rest e
  · intro cfg st st' e hr he
    induction hr with
    | refl => exact he
    | tail _ hstep ih => exact step_err_sticky hstep ih

/-- Closed instance of c3_error_register_first_wins: of two reported
errors the register keeps the first, and a set register survives any
(here: empty) run of steps. -/
theorem c3_error_register_first_wins_witness :
    List.foldl SetError none ["e1", "e2"] = some "e1" ∧
    ({ input := [], cnq := [], inflight := 0, parsed := 0, processed := 0,
       ignored := 0, err := some "boom", pworkers := 0, mworkers := 0,
       cnqClosed := false } : PState).err = some "boom" :=
  ⟨c3_error_register_first_wins.2.1 ["e1", "e2"],
   c3_error_register_first_wins.2.2.1 cfgOwnAll _ _ "boom"
     Relation.ReflTransGen.refl rfl⟩

/-- C5: for every window capacity of at least 1 (in particular for every
capacity from 1 up to beyond the input length) and every sequence of
random choices, the lines emitted by readLines are exactly the lines
read from the stream as a multiset: no loss, no duplication; the second
conjunct instantiates the source's capacity of 1000. -/
theorem c5_randomization_multiset (w : Nat) (ks : List Nat)
    (lines : List String) (hw : 1 ≤ w) :
    ((readLinesWindow w ks lines : List String) : Multiset String)
        = (lines : Multiset String) ∧
    ((readLines ks lines : List String) : Multiset String)
        = (lines : Multiset String) := by
  constructor
  · exact Multiset.coe_eq_coe.mpr (readLinesWindow_perm w ks lines hw)
  · exact Multiset.coe_eq_coe.mpr
      (readLinesWindow_perm windowCapacity ks lines (by decide))

/-- Closed instance of c5_randomization_multiset at capacity 1. -/
theorem c5_randomization_multiset_witness :
    1 ≤ 1 ∧
    ((readLinesWindow 1 [0, 1] ["a", "b", "c"] : List String) : Multiset String)
      = (["a", "b", "c"] : List String) :=
  ⟨by decide, (c5_randomization_multiset 1 [0, 1] ["a", "b", "c"] (by decide)).1⟩

/-- C8: applying one edge performs exactly the call sequence
GetOrCreate, AddMutationWithIndex, release (the decr callback), so the
release happens immediately after the single mutation call and is never
deferred; over any worker run, the number of releases equals the number
of acquisitions equals the number of edges applied — every lease is
released exactly once, never twice. -/
theorem c8_lease_release_once (es : List Edge) :
    (∀ e : Edge, applyEdgeEvents e =
        [StoreEvent.getOrCreate ⟨e.entity, e.attrib⟩,
         StoreEvent.addMutationWithIndex ⟨e.entity, e.attrib⟩ e,
         StoreEvent.release ⟨e.entity, e.attrib⟩]) ∧
    (workerStoreTrace es).countP StoreEvent.isRelease = es.length ∧
    (workerStoreTrace es).countP StoreEvent.isAcquire = es.length := by
  refine ⟨fun _ => rfl, ?_, ?_⟩ <;>
  · induction es with
    | nil => rfl
    | cons e es ih =>
      simp [workerStoreTrace, applyEdgeEvents, List.countP_cons,
        StoreEvent.isRelease, StoreEvent.isAcquire] at ih ⊢
      omega

/-- C9: with numInstances = 0 the modulo on loader.go line 209 divides
by zero (a Go runtime panic, modelled as `none`) for every fingerprint,
so no dequeue of a triple by a mutation worker can complete in an
error-free state; the sharding test produces a value exactly when
numInstances >= 1, the implicit precondition of LoadEdges. -/
theorem c9_modulo_zero_panics :
    (∀ fp idx : Nat, shardOwns fp 0 idx = none) ∧
    (∀ fp n idx : Nat, (shardOwns fp n idx).isSome = true ↔ 1 ≤ n) ∧
    (∀ (cfg : Config) (st st' : PState) (nq : NQuad) (rest : List NQuad),
        cfg.numInstances = 0 → Step cfg st st' → st.err = none →
        st.cnq = nq :: rest → st'.cnq ≠ rest) := by
  refine ⟨fun _ _ => rfl, ?_, ?_⟩
  · intro fp n idx
    rcases n with _ | n <;> simp [shardOwns]
  · intro cfg st st' nq rest hzero hstep herr hq hq'
    rcases dequeue_step_cases hstep hq hq' with
      ⟨e, he, _⟩ | ⟨_, hob, _⟩ | ⟨_, hob, _⟩ | ⟨m, _, hob, _⟩
    · rw [herr] at he; cases he
    · rw [hzero] at hob; simp [shardOwns] at hob
    · rw [hzero] at hob; simp [shardOwns] at hob
    · rw [hzero] at hob; simp [shardOwns] at hob

/-- Closed instance of c9_modulo_zero_panics: fingerprint 7 panics with
0 instances and is safe with 5. -/
theorem c9_modulo_zero_panics_witness :
    shardOwns 7 0 3 = none ∧ (shardOwns 7 5 3).isSome = true :=
  ⟨c9_modulo_zero_panics.1 7 3,
   (c9_modulo_zero_panics.2.1 7 5 3).mpr (by decide)⟩

/-- C6: if ToEdge fails with the transient error exactly k times and
then succeeds, the retry loop of loader.go lines 214-227 terminates
after k+1 calls with the edge; if a permanent failure occurs after any
transient prefix, the loop exits with that error; and at the pipeline
level a dequeue of an owned triple either ends with the processed
counter incremented by exactly one and nothing else changed, or (on a
permanent failure) records the error, leaves processed untouched and
stops the worker. -/
theorem c6_retry_convergence (f : Nat → EdgeRes) (k : Nat) (e : Edge)
    (htmp : ∀ i, i < k → f i = EdgeRes.tmpError)
    (hok : f k = EdgeRes.ok e) :
    retryToEdge f 0 (k + 1) = some (Except.ok e) ∧
    (∀ (g : Nat → EdgeRes) (j : Nat) (m : Err),
        (∀ i, i < j → g i = EdgeRes.tmpError) → g j = EdgeRes.permError m →
        retryToEdge g 0 (j + 1) = some (Except.error m)) ∧
    (∀ (cfg : Config) (st st' : PState) (nq : NQuad) (rest : List NQuad),
        Step cfg st st' → st.err = none → st.cnq = nq :: rest →
        st'.cnq = rest →
        shardOwns (cfg.fp nq.predicate) cfg.numInstances cfg.instanceIdx
          = some true →
        ((st'.err = none →
            st' = { st with cnq := rest, processed := st.processed + 1 }) ∧
         (∀ m, st'.err = some m →
            st'.processed = st.processed ∧
            st'.mworkers = st.mworkers - 1))) := by
  refine ⟨?_, ?_, ?_⟩
  · have h := retryToEdge_tmp_prefix f k 0 (by intro i hi; simpa using htmp i hi)
    rw [h]
    simp [retryToEdge, hok]
  · intro g j m htmp2 hperm
    have h := retryToEdge_tmp_prefix g j 0 (by intro i hi; simpa using htmp2 i hi)
    rw [h]
    simp [retryToEdge, hperm]
  · intro cfg st st' nq rest hstep herr hq hq' hsh
    rcases dequeue_step_cases hstep hq hq' with
      ⟨e0, he, _⟩ | ⟨_, hob, _⟩ | ⟨_, _, hres⟩ | ⟨m0, _, _, hres⟩
    · rw [herr] at he; cases he
    · rw [hsh] at hob; cases hob
    · subst hres
      constructor
      · intro _; rfl
      · intro m hm
        dsimp only at hm
        rw [herr] at hm
        cases hm
    · subst hres
      constructor
      · intro hnone
        dsimp only at hnone
        cases hnone
      · intro m _
        exact ⟨rfl, rfl⟩

/-- Closed instance of c6_retry_convergence: two transient failures then
success terminates in three calls. -/
theorem c6_retry_convergence_witness :
    retryToEdge
        (fun i => if i < 2 then EdgeRes.tmpError
                  else EdgeRes.ok { entity := "a", attrib := "b" })
        0 3
      = some (Except.ok { entity := "a", attrib := "b" }) :=
  (c6_retry_convergence
      (fun i => if i < 2 then EdgeRes.tmpError
                else EdgeRes.ok { entity := "a", attrib := "b" })
      2 { entity := "a", attrib := "b" }
      (by decide) (by decide)).1

/-- C4: along every run, cnq is closed only by a step from a state where
every parse worker has exited (loader.go lines 271-272); once both
worker pools have exited (both Wait calls returned), no step changes any
counter, the error register, or the returned pair — the returned
processed count is final and stable; and in an error-free run with at
least one mutation worker, mutation-pool exit implies cnq was fully
drained (no enqueued triple is dropped). -/
theorem c4_shutdown_ordering (cfg : Config) (lines : List String)
    (np nm : Nat) (st : PState)
    (hr : Reach cfg (initState lines np nm) st) :
    (∀ st', Step cfg st st' → st.cnqClosed = false →
        st'.cnqClosed = true → st.pworkers = 0) ∧
    (st.pworkers = 0 → st.mworkers = 0 →
        ∀ st', Step cfg st st' →
          loadEdgesReturn st' = loadEdgesReturn st ∧
          st'.parsed = st.parsed ∧ st'.processed = st.processed ∧
          st'.ignored = st.ignored) ∧
    (1 ≤ nm → st.err = none → st.mworkers = 0 → st.cnq = []) := by
  have h1 := (reach_inv0 hr).1
  refine ⟨?_, ?_, ?_⟩
  · intro st' hstep hc hc'
    cases hstep <;> first
      | assumption
      | (exfalso; dsimp only at hc'; rw [hc] at hc'; cases hc')
  · intro hp0 hm0 st' hstep
    cases hstep with
    | parseDrop l rest e hin herr hfree => exfalso; omega
    | parseBlank l rest hin herr hbl hfree => exfalso; omega
    | parseFail l rest m hin herr htr hp hfree => exfalso; omega
    | parseEnq l rest nq hin herr htr hp hfree => exfalso; omega
    | parseInc hfl => exfalso; omega
    | parseExit hin hfree => exfalso; omega
    | closeCnq hpw hcl => exact ⟨rfl, rfl, rfl, rfl⟩
    | mutDrop nq rest e hq herr hm => exfalso; omega
    | mutIgnore nq rest hq herr hsh hm => exfalso; omega
    | mutProcess nq rest hq herr hsh hm => exfalso; omega
    | mutPermFail nq rest m hq herr hsh hm => exfalso; omega
    | mutExit hcl hq hm => exfalso; omega
  · intro hnm he hm0
    exact (reach_drained hnm hr he hm0).2

/-- Closed instance of c4_shutdown_ordering: the close step witnesses
the ordering at a zero-parser start, stability at a fully-exited start,
and the drain property after a close-then-exit run. -/
theorem c4_shutdown_ordering_witness :
    (initState [] 0 1).pworkers = 0 ∧
    loadEdgesReturn { initState [] 0 0 with cnqClosed := true }
      = loadEdgesReturn (initState [] 0 0) ∧
    ({ input := [], cnq := [], inflight := 0, parsed := 0, processed := 0,
       ignored := 0, err := none, pworkers := 0, mworkers := 0,
       cnqClosed := true } : PState).cnq = [] := by
  refine ⟨?_, ?_, ?_⟩
  · exact (c4_shutdown_ordering cfgOwnAll [] 0 1 (initState [] 0 1)
      Relation.ReflTransGen.refl).1 _ (Step.closeCnq _ rfl rfl) rfl rfl
  · exact ((c4_shutdown_ordering cfgOwnAll [] 0 0 (initState [] 0 0)
      Relation.ReflTransGen.refl).2.1 rfl rfl _ (Step.closeCnq _ rfl rfl)).1
  · exact (c4_shutdown_ordering cfgOwnAll [] 0 1 _
      (Relation.ReflTransGen.head (Step.closeCnq _ rfl rfl)
        (Relation.ReflTransGen.head (Step.mutExit _ rfl rfl (by decide))
          Relation.ReflTransGen.refl))).2.2 (by decide) rfl rfl

/-- C2 as stated is false: counterexample.  Started with zero mutation
workers (maxroutines = 0, a legal flag value), the run on input "x"
completes — both worker pools have exited — with a nil error and
parsed = 1 but processed = ignored = 0, so parsed ≠ processed +
ignored. -/
theorem c2_counterexample_zero_mutators :
    ∃ st : PState, Reach cfgOwnAll (initState ["x"] 1 0) st ∧
      st.pworkers = 0 ∧ st.mworkers = 0 ∧ st.err = none ∧
      st.parsed = 1 ∧ st.processed = 0 ∧ st.ignored = 0 ∧
      st.parsed ≠ st.processed + st.ignored := by
  refine ⟨{ input := [], cnq := [nqX], inflight := 0, parsed := 1,
            processed := 0, ignored := 0, err := none, pworkers := 0,
            mworkers := 0, cnqClosed := false },
          ?_, rfl, rfl, rfl, rfl, rfl, rfl, by decide⟩
  exact Relation.ReflTransGen.head
    (Step.parseEnq _ "x" [] nqX rfl rfl (by decide) rfl (by decide))
    (Relation.ReflTransGen.head (Step.parseInc _ (by decide))
      (Relation.ReflTransGen.head (Step.parseExit _ rfl (by decide))
        Relation.ReflTransGen.refl))

/-- C2 amended: for every completed error-free run of LoadEdges started
with at least one mutation worker, parsed = processed + ignored. -/
theorem c2_counters_balance (cfg : Config) (lines : List String)
    (np nm : Nat) (st : PState) (hnm : 1 ≤ nm)
    (hr : Reach cfg (initState lines np nm) st)
    (hp : st.pworkers = 0) (hm : st.mworkers = 0) (he : st.err = none) :
    st.parsed = st.processed + st.ignored := by
  obtain ⟨h1, h2, h3, h4⟩ := reach_inv0 hr
  have hd := reach_drained hnm hr he hm
  have h4' := h4 he
  rw [hd.2] at h4'
  simp at h4'
  omega

/-- Closed instance of c2_counters_balance: the empty-input run with one
parser and one mutation worker completes with 0 = 0 + 0. -/
theorem c2_counters_balance_witness :
    ({ input := [], cnq := [], inflight := 0, parsed := 0, processed := 0,
       ignored := 0, err := none, pworkers := 0, mworkers := 0,
       cnqClosed := true } : PState).parsed
      = ({ input := [], cnq := [], inflight := 0, parsed := 0,
           processed := 0, ignored := 0, err := none, pworkers := 0,
           mworkers := 0, cnqClosed := true } : PState).processed
        + ({ input := [], cnq := [], inflight := 0, parsed := 0,
             processed := 0, ignored := 0, err := none, pworkers := 0,
             mworkers := 0, cnqClosed := true } : PState).ignored :=
  c2_counters_balance cfgOwnAll [] 1 1 _ (by decide)
    (Relation.ReflTransGen.head (Step.parseExit _ rfl (by decide))
      (Relation.ReflTransGen.head (Step.closeCnq _ (by decide) rfl)
        (Relation.ReflTransGen.head (Step.mutExit _ rfl rfl (by decide))
          Relation.ReflTransGen.refl)))
    rfl rfl rfl

/-- C7 as stated is false: counterexample.  The send on cnq (line 193)
precedes the parsed increment (line 194), so a mutation worker can
process the triple first: after parseEnq then mutProcess on input "x",
parsed = 0 < 1 = processed + ignored at a reachable state. -/
theorem c7_counterexample_processed_before_parsed :
    ∃ st : PState, Reach cfgOwnAll (initState ["x"] 1 1) st ∧
      st.parsed < st.processed + st.ignored := by
  refine ⟨{ input := [], cnq := [], inflight := 1, parsed := 0,
            processed := 1, ignored := 0, err := none, pworkers := 1,
            mworkers := 1, cnqClosed := false },
          ?_, by decide⟩
  exact Relation.ReflTransGen.head
    (Step.parseEnq _ "x" [] nqX rfl rfl (by decide) rfl (by decide))
    (Relation.ReflTransGen.head
      (Step.mutProcess _ nqX [] rfl rfl (by decide) (by decide))
      Relation.ReflTransGen.refl)

/-- C7 amended: at every reachable state,
processed + ignored ≤ parsed + inflight, where inflight counts the
triples already sent on cnq whose parsed-counter increment is still
pending; in particular parsed ≥ processed + ignored holds at every
reachable state where no parse worker sits between the send and its
increment (inflight = 0). -/
theorem c7_counter_invariant (cfg : Config) (lines : List String)
    (np nm : Nat) (st : PState)
    (hr : Reach cfg (initState lines np nm) st) :
    st.processed + st.ignored ≤ st.parsed + st.inflight ∧
    (st.inflight = 0 → st.processed + st.ignored ≤ st.parsed) := by
  have h3 := (reach_inv0 hr).2.2.1
  exact ⟨by omega, fun h0 => by omega⟩

/-- Closed instance of c7_counter_invariant at the initial state. -/
theorem c7_counter_invariant_witness :
    (initState [] 1 1).processed + (initState [] 1 1).ignored
      ≤ (initState [] 1 1).parsed :=
  (c7_counter_invariant cfgOwnAll [] 1 1 (initState [] 1 1)
    Relation.ReflTransGen.refl).2 rfl

/-- C10: the error register is checked only after a dequeue: a step that
removes a line from the input queue while the register is set is exactly
the parse worker early return (consume, discard, exit; no counter
changes); likewise for a triple and a mutation worker; and there is a
completed run — one good line, one bad line — whose final state has
parsed = 1 but processed = ignored = 0: a parsed triple reaches no
terminal count after an error. -/
theorem c10_post_dequeue_error_check :
    (∀ (cfg : Config) (st st' : PState) (e : Err) (l : String)
        (rest : List String),
        Step cfg st st' → st.err = some e → st.input = l :: rest →
        st'.input = rest →
        st' = { st with input := rest, pworkers := st.pworkers - 1 }) ∧
    (∀ (cfg : Config) (st st' : PState) (e : Err) (nq : NQuad)
        (rest : List NQuad),
        Step cfg st st' → st.err = some e → st.cnq = nq :: rest →
        st'.cnq = rest →
        st' = { st with cnq := rest, mworkers := st.mworkers - 1 }) ∧
    (∃ st : PState, Reach cfgFailB (initState ["a", "b"] 1 1) st ∧
        st.pworkers = 0 ∧ st.mworkers = 0 ∧ st.err = some "parse" ∧
        st.parsed = 1 ∧ st.processed = 0 ∧ st.ignored = 0) := by
  refine ⟨?_, ?_, ?_⟩
  · intro cfg st st' e l rest hstep he hq hq'
    exact line_dequeue_err_cases hstep he hq hq'
  · intro cfg st st' e nq rest hstep he hq hq'
    rcases dequeue_step_cases hstep hq hq' with
      ⟨e0, _, hres⟩ | ⟨herr0, _, _⟩ | ⟨herr0, _, _⟩ | ⟨m, herr0, _, _⟩
    · exact hres
    · rw [he] at herr0; cases herr0
    · rw [he] at herr0; cases herr0
    · rw [he] at herr0; cases herr0
  · refine ⟨{ input := [], cnq := [], inflight := 0, parsed := 1,
              processed := 0, ignored := 0, err := some "parse",
              pworkers := 0, mworkers := 0, cnqClosed := false },
            ?_, rfl, rfl, rfl, rfl, rfl, rfl⟩
    exact Relation.ReflTransGen.head
      (Step.parseEnq _ "a" ["b"] nqX rfl rfl (by decide)
        (by simp [cfgFailB, show trimLine "a" = "a" from by decide])
        (by decide))
      (Relation.ReflTransGen.head (Step.parseInc _ (by decide))
        (Relation.ReflTransGen.head
          (Step.parseFail _ "b" [] "parse" rfl rfl (by decide)
            (by simp [cfgFailB, show trimLine "b" = "b" from by decide])
            (by decide))
          (Relation.ReflTransGen.head
            (Step.mutDrop _ nqX [] "parse" rfl rfl (by decide))
            Relation.ReflTransGen.refl)))

/-- Closed instance of c10_post_dequeue_error_check: a mutation worker
that dequeues with the register set only removes the triple and
exits. -/
theorem c10_post_dequeue_error_check_witness :
    ({ stErrQueued with cnq := [], mworkers := 0 } : PState)
      = { stErrQueued with
          cnq := [],
          mworkers := stErrQueued.mworkers - 1 } :=
  c10_post_dequeue_error_check.2.1 cfgFailB stErrQueued _ "parse" nqX []
    (Step.mutDrop stErrQueued nqX [] "parse" rfl rfl (by decide))
    rfl rfl rfl

end Loader
